import Mathlib

/-!
Verification development for the SnapMemoryDL media downloader
(`src/snap_memories_dl.py`).  The Python source is shallowly embedded:
pure helpers become Lean functions on `List Char` / `Int` / `Nat`,
the HTTP layer is modelled by per-attempt oracles describing what the
network returns, the file system is a `Finset` of structured paths, and
the cooperative stop flag is a boolean signal indexed by a poll counter.
-/

namespace Snap

/-! ## HTTP retry layer: `_request_with_fallback` -/

/-- HTTP method used by the session call. -/
inductive Method
  | get
  | post
deriving DecidableEq, Repr

/-- A raw HTTP response as the `requests` session yields it: status code and
the final URL after redirects (`r.url`). -/
structure HttpResp where
  status : Nat
  url : String
deriving DecidableEq, Repr

/-- Outcome of one `session.get`/`session.post` call: either a response or a
raised network-level exception (identified by a numeric id). -/
inductive HttpResult
  | ok (r : HttpResp)
  | exc (e : Nat)
deriving DecidableEq, Repr

/-- Environment for one attempt of `_request_with_fallback`: what the GET
returns, and what the POST returns if the method fallback fires.  Both calls
target the same URL, which is a fixed parameter of the whole
`_request_with_fallback` invocation and therefore not repeated here. -/
structure AttemptEnv where
  getRes : HttpResult
  postRes : HttpResult
deriving DecidableEq, Repr

/-- The response object held by the Python variable `r`: which method produced
it, its status, its final URL, and on which attempt it was obtained. -/
structure Resp where
  method : Method
  status : Nat
  url : String
  attempt : Nat
deriving DecidableEq, Repr

/-- Observable events of `_request_with_fallback`: issuing a GET/POST on
attempt `a`, closing the GET response before the POST fallback, and
`time.sleep` with the backoff duration in seconds. -/
inductive Ev
  | get (a : Nat)
  | closeGet (a : Nat)
  | post (a : Nat)
  | sleep (secs : Nat)
deriving DecidableEq, Repr

/-- Result of `_request_with_fallback`: a returned response, a re-raised last
exception, or the unreachable fall-through `return r` with `r` unbound. -/
inductive RwfOut
  | ok (r : Resp)
  | raise (e : Nat)
  | unbound
deriving DecidableEq, Repr

/-- Backoff `min(8, 2 ** (a - 1))` for 1-based attempt `a`. -/
def backoff (a : Nat) : Nat := min 8 (2 ^ (a - 1))

/-- Retryable-status test: `r.status_code >= 500 or r.status_code in (429,)`. -/
def retryable (s : Nat) : Bool := 500 ≤ s || s == 429

/-- Outcome of the `try` body of one attempt before the retry classification:
either an exception was raised (with the value the variable `r` holds at that
point, when the GET had already assigned it), or a response was obtained. -/
inductive AttemptOut
  | raised (e : Nat) (rNow : Option Resp)
  | got (r : Resp)
deriving DecidableEq, Repr

/-- One attempt of `_request_with_fallback`: issue the GET; on 405/403 close
it and issue a POST against the same URL; a raised exception is reported with
the response `r` currently holds.  Returns the outcome and the event trace of
this attempt. -/
def attemptStep (env : AttemptEnv) (a : Nat) : AttemptOut × List Ev :=
  match env.getRes with
  | .exc e => (.raised e none, [.get a])
  | .ok g =>
    if g.status = 405 ∨ g.status = 403 then
      match env.postRes with
      | .exc e =>
          (.raised e (some ⟨.get, g.status, g.url, a⟩), [.get a, .closeGet a, .post a])
      | .ok p =>
          (.got ⟨.post, p.status, p.url, a⟩, [.get a, .closeGet a, .post a])
    else
      (.got ⟨.get, g.status, g.url, a⟩, [.get a])

/-- Value of the Python variable `r` after an exception: the GET response if
the attempt had assigned one before raising, else the previous value. -/
def updResp (rNow lastResp : Option Resp) : Option Resp :=
  match rNow with
  | some r => some r
  | none => lastResp

/-- The retry loop of `_request_with_fallback`.  `k` counts the remaining
iterations, `a` is the 1-based attempt number, `lastExc` mirrors `last_exc`,
`lastResp` mirrors the loop variable `r` (unset before the first assignment),
and `tr` accumulates the event trace. -/
def rwfGo (env : Nat → AttemptEnv) :
    Nat → Nat → Option Nat → Option Resp → List Ev → RwfOut × List Ev
  | 0, _, lastExc, lastResp, tr =>
    (match lastExc with
     | some e => .raise e
     | none =>
       match lastResp with
       | some r => .ok r
       | none => .unbound, tr)
  | k + 1, a, lastExc, lastResp, tr =>
    match attemptStep (env a) a with
    | (.raised e rNow, evs) =>
      rwfGo env k (a + 1) (some e) (updResp rNow lastResp)
        (tr ++ evs ++ [.sleep (backoff a)])
    | (.got r, evs) =>
      if retryable r.status then
        rwfGo env k (a + 1) lastExc (some r) (tr ++ evs ++ [.sleep (backoff a)])
      else
        (.ok r, tr ++ evs)

/-- `_request_with_fallback(session, url, attempts)`: the loop runs
`range(1, max(1, attempts) + 1)`, i.e. `max 1 attempts` iterations. -/
def rwf (env : Nat → AttemptEnv) (attempts : Int) : RwfOut × List Ev :=
  rwfGo env (max 1 attempts).toNat 1 none none []

/-- Environment of C1 scenario 1: attempts 1 and 2 answer 503, attempt 3
answers 200 (the POST side is never consulted on non-403/405 statuses). -/
def envRetryOk : Nat → AttemptEnv :=
  fun a => ⟨.ok ⟨if a ≤ 2 then 503 else 200, "u"⟩, .ok ⟨200, "u"⟩⟩

/-- Environment of C1 scenario 2: every attempt answers 503. -/
def envAll503 : Nat → AttemptEnv :=
  fun _ => ⟨.ok ⟨503, "u"⟩, .ok ⟨503, "u"⟩⟩

/-- Environment of C1 scenario 3: every attempt raises a network exception
(attempt `a` raises exception id `a`). -/
def envAllExc : Nat → AttemptEnv :=
  fun a => ⟨.exc a, .exc a⟩

/-- Every attempt's trace starts by issuing the GET. -/
lemma attemptStep_get_mem (e : AttemptEnv) (a : Nat) :
    Ev.get a ∈ (attemptStep e a).2 := by
  unfold attemptStep
  rcases e with ⟨gr, pr⟩
  cases gr with
  | exc e => simp
  | ok g =>
    simp only
    split
    · cases pr <;> simp
    · simp

/-- Unfolding equation for one iteration of the retry loop. -/
lemma rwfGo_succ (env : Nat → AttemptEnv) (k a : Nat)
    (lastExc : Option Nat) (lastResp : Option Resp) (tr : List Ev) :
    rwfGo env (k + 1) a lastExc lastResp tr =
      match attemptStep (env a) a with
      | (.raised e rNow, evs) =>
        rwfGo env k (a + 1) (some e) (updResp rNow lastResp)
          (tr ++ evs ++ [.sleep (backoff a)])
      | (.got r, evs) =>
        if retryable r.status then
          rwfGo env k (a + 1) lastExc (some r) (tr ++ evs ++ [.sleep (backoff a)])
        else
          (.ok r, tr ++ evs) := rfl

/-- The retry loop only ever appends to the accumulated trace. -/
lemma rwfGo_trace_ext (env : Nat → AttemptEnv) :
    ∀ (k a : Nat) (lastExc : Option Nat) (lastResp : Option Resp) (tr : List Ev),
      ∃ ext, (rwfGo env k a lastExc lastResp tr).2 = tr ++ ext := by
  intro k
  induction k with
  | zero =>
    intro a lastExc lastResp tr
    exact ⟨[], by cases lastExc <;> cases lastResp <;> simp [rwfGo]⟩
  | succ k ih =>
    intro a lastExc lastResp tr
    rw [rwfGo_succ]
    rcases h : attemptStep (env a) a with ⟨out, evs⟩
    cases out with
    | raised e rNow =>
      simp only
      obtain ⟨ext, hext⟩ := ih (a + 1) (some e) (updResp rNow lastResp)
        (tr ++ evs ++ [.sleep (backoff a)])
      refine ⟨evs ++ [.sleep (backoff a)] ++ ext, ?_⟩
      rw [hext]
      simp [List.append_assoc]
    | got r =>
      simp only
      split
      · obtain ⟨ext, hext⟩ := ih (a + 1) lastExc (some r)
          (tr ++ evs ++ [.sleep (backoff a)])
        refine ⟨evs ++ [.sleep (backoff a)] ++ ext, ?_⟩
        rw [hext]
        simp [List.append_assoc]
      · exact ⟨evs, rfl⟩

/-- With at least one iteration left, the loop issues the GET of the current
attempt. -/
lemma rwfGo_get_mem (env : Nat → AttemptEnv) (k a : Nat)
    (lastExc : Option Nat) (lastResp : Option Resp) (tr : List Ev) :
    Ev.get a ∈ (rwfGo env (k + 1) a lastExc lastResp tr).2 := by
  rw [rwfGo_succ]
  rcases h : attemptStep (env a) a with ⟨out, evs⟩
  have hg : Ev.get a ∈ evs := by
    have hm := attemptStep_get_mem (env a) a
    rw [h] at hm
    exact hm
  cases out with
  | raised e rNow =>
    simp only
    obtain ⟨ext, hext⟩ := rwfGo_trace_ext env k (a + 1) (some e)
      (updResp rNow lastResp) (tr ++ evs ++ [.sleep (backoff a)])
    rw [hext]
    simp [hg]
  | got r =>
    simp only
    split
    · obtain ⟨ext, hext⟩ := rwfGo_trace_ext env k (a + 1) lastExc (some r)
        (tr ++ evs ++ [.sleep (backoff a)])
      rw [hext]
      simp [hg]
    · simp [hg]

/-- Once `last_exc` or `r` is set — or at least one iteration remains — the
unreachable unbound-variable branch is never the result. -/
lemma rwfGo_ne_unbound (env : Nat → AttemptEnv) :
    ∀ (k a : Nat) (lastExc : Option Nat) (lastResp : Option Resp) (tr : List Ev),
      (lastExc.isSome ∨ lastResp.isSome ∨ 1 ≤ k) →
      (rwfGo env k a lastExc lastResp tr).1 ≠ .unbound := by
  intro k
  induction k with
  | zero =>
    intro a lastExc lastResp tr h
    cases lastExc with
    | some e => simp [rwfGo]
    | none =>
      cases lastResp with
      | some r => simp [rwfGo]
      | none => simp at h
  | succ k ih =>
    intro a lastExc lastResp tr _
    rw [rwfGo_succ]
    rcases h : attemptStep (env a) a with ⟨out, evs⟩
    cases out with
    | raised e rNow =>
      simp only
      exact ih (a + 1) (some e) _ _ (Or.inl rfl)
    | got r =>
      simp only
      split
      · exact ih (a + 1) lastExc (some r) _ (Or.inr (Or.inl rfl))
      · simp

/-- Claim C1: with `attempts = 3`, a `[503, 503, 200]` response sequence makes
`_request_with_fallback` return the single 200 response after sleeping 1s then
2s (the `min(8, 2 ** (attempt - 1))` pattern); an all-503 environment makes it
return the third, still-503 response to the caller instead of raising; and a
network-level exception on every attempt makes it propagate the last exception
after exhausting the retries. -/
theorem rwf_retry_backoff_scenarios :
    rwf envRetryOk 3 =
      (.ok ⟨.get, 200, "u", 3⟩,
       [.get 1, .sleep 1, .get 2, .sleep 2, .get 3]) ∧
    rwf envAll503 3 =
      (.ok ⟨.get, 503, "u", 3⟩,
       [.get 1, .sleep 1, .get 2, .sleep 2, .get 3, .sleep 4]) ∧
    rwf envAllExc 3 =
      (.raise 3,
       [.get 1, .sleep 1, .get 2, .sleep 2, .get 3, .sleep 4]) :=
  ⟨by decide, by decide, by decide⟩

/-- Claim C8: when the GET of an attempt yields 403 or 405, the same attempt
closes the GET response and immediately issues a POST against the same URL
(the whole `_request_with_fallback` call targets one fixed URL), and the POST
response then goes through the same retryable-status classification a GET
response would. -/
theorem rwf_method_fallback (e : AttemptEnv) (a : Nat) (g p : HttpResp)
    (hget : e.getRes = .ok g) (hst : g.status = 403 ∨ g.status = 405)
    (hpost : e.postRes = .ok p) :
    attemptStep e a =
      (.got ⟨.post, p.status, p.url, a⟩, [.get a, .closeGet a, .post a]) ∧
    ∀ (env : Nat → AttemptEnv) (k : Nat) (lastExc : Option Nat)
      (lastResp : Option Resp) (tr : List Ev),
      env a = e →
      rwfGo env (k + 1) a lastExc lastResp tr =
        if retryable p.status then
          rwfGo env k (a + 1) lastExc (some ⟨.post, p.status, p.url, a⟩)
            (tr ++ [.get a, .closeGet a, .post a] ++ [.sleep (backoff a)])
        else
          (.ok ⟨.post, p.status, p.url, a⟩,
           tr ++ [.get a, .closeGet a, .post a]) := by
  have hstep : attemptStep e a =
      (.got ⟨.post, p.status, p.url, a⟩, [.get a, .closeGet a, .post a]) := by
    unfold attemptStep
    rw [hget]
    simp only
    rw [if_pos (by tauto)]
    rw [hpost]
  refine ⟨hstep, ?_⟩
  intro env k lastExc lastResp tr henv
  rw [rwfGo_succ, henv, hstep]

/-- Witness for C8 at a concrete environment: attempt 1 gets 403, the POST
answers 200, so the call returns the POST response directly. -/
theorem rwf_method_fallback_witness :
    attemptStep ⟨.ok ⟨403, "u"⟩, .ok ⟨200, "u"⟩⟩ 1 =
      (.got ⟨.post, 200, "u", 1⟩, [.get 1, .closeGet 1, .post 1]) ∧
    rwfGo (fun _ => ⟨.ok ⟨403, "u"⟩, .ok ⟨200, "u"⟩⟩) 3 1 none none [] =
      (.ok ⟨.post, 200, "u", 1⟩, [.get 1, .closeGet 1, .post 1]) := by
  have h := rwf_method_fallback ⟨.ok ⟨403, "u"⟩, .ok ⟨200, "u"⟩⟩ 1
    ⟨403, "u"⟩ ⟨200, "u"⟩ rfl (Or.inl rfl) rfl
  refine ⟨h.1, ?_⟩
  have h2 := h.2 (fun _ => ⟨.ok ⟨403, "u"⟩, .ok ⟨200, "u"⟩⟩) 2 none none [] rfl
  rw [h2]
  decide

/-- Claim C10: the attempt count is clamped to `max(1, attempts)`, so for a
non-positive `attempts` the call behaves exactly like `attempts = 1`; for
every integer `attempts` the result is well defined (the unbound-variable
fall-through is unreachable) and at least one full attempt is performed (the
GET of attempt 1 always appears in the trace). -/
theorem rwf_attempts_clamped_total (attempts : Int) (env : Nat → AttemptEnv) :
    (attempts ≤ 0 → rwf env attempts = rwf env 1) ∧
    (rwf env attempts).1 ≠ .unbound ∧
    Ev.get 1 ∈ (rwf env attempts).2 := by
  have hk : 1 ≤ (max 1 attempts).toNat := by
    have h1 : (1 : Int) ≤ max 1 attempts := le_max_left _ _
    omega
  refine ⟨?_, ?_, ?_⟩
  · intro hneg
    unfold rwf
    rw [max_eq_left (by omega : attempts ≤ 1), max_self]
  · exact rwfGo_ne_unbound env _ 1 none none [] (Or.inr (Or.inr hk))
  · obtain ⟨k, hk'⟩ : ∃ k, (max 1 attempts).toNat = k + 1 :=
      ⟨(max 1 attempts).toNat - 1, by omega⟩
    unfold rwf
    rw [hk']
    exact rwfGo_get_mem env k 1 none none []

/-- Witness for C10 at `attempts = -5`: the call equals the
single-attempt call and returns a defined response. -/
theorem rwf_attempts_clamped_total_witness :
    rwf envAll503 (-5) = rwf envAll503 1 ∧
    (rwf envAll503 (-5)).1 ≠ .unbound ∧
    Ev.get 1 ∈ (rwf envAll503 (-5)).2 := by
  have h := rwf_attempts_clamped_total (-5) envAll503
  exact ⟨h.1 (by norm_num), h.2.1, h.2.2⟩

/-! ## Selection parsing: `_parse_indices` -/

/-- Whitespace stripped by Python `int()` around a numeric literal. -/
def isPyWs (c : Char) : Bool :=
  c == ' ' || c == '\t' || c == '\n' || c == '\r' || c == '\x0b' || c == '\x0c'

/-- Digit run of a Python integer literal after the first digit: single
underscores are allowed between digits, nowhere else. -/
def pyDigitsGo : List Char → Nat → Option Nat
  | [], acc => some acc
  | '_' :: c :: rest, acc =>
    if c.isDigit then pyDigitsGo rest (acc * 10 + (c.toNat - 48)) else none
  | ['_'], _ => none
  | c :: rest, acc =>
    if c.isDigit then pyDigitsGo rest (acc * 10 + (c.toNat - 48)) else none

/-- Nonempty decimal digit run, the body of a Python integer literal. -/
def pyNatDigits : List Char → Option Nat
  | [] => none
  | c :: rest => if c.isDigit then pyDigitsGo rest (c.toNat - 48) else none

/-- Strip leading and trailing whitespace. -/
def trimWs (cs : List Char) : List Char :=
  ((cs.dropWhile isPyWs).reverse.dropWhile isPyWs).reverse

/-- Python `int(s)` on a decimal string: optional surrounding whitespace, an
optional sign, then digits (ASCII; unicode digits are out of scope).  `none`
models the `ValueError` the source catches and turns into a skipped token. -/
def pyInt (cs : List Char) : Option Int :=
  match trimWs cs with
  | '+' :: rest => (pyNatDigits rest).map Int.ofNat
  | '-' :: rest => (pyNatDigits rest).map (fun n => -(n : Int))
  | rest => (pyNatDigits rest).map Int.ofNat

/-- Python `text.split(',')`: the empty string yields one empty token. -/
def splitComma : List Char → List (List Char)
  | [] => [[]]
  | c :: rest =>
    if c = ',' then [] :: splitComma rest
    else
      match splitComma rest with
      | [] => [[c]]
      | h :: t => (c :: h) :: t

/-- Python `part.split('-', 1)` under the guard `'-' in part`: the text before
the first dash and everything after it.  (Without a dash it returns the whole
input and an empty remainder; the source only calls it when a dash exists, and
either way the token is skipped because `int("")` fails.) -/
def splitOnceDash : List Char → List Char × List Char
  | [] => ([], [])
  | c :: rest =>
    if c = '-' then ([], rest)
    else
      let p := splitOnceDash rest
      (c :: p.1, p.2)

/-- Insert into an ascending duplicate-free list: the model of adding to the
Python `set` that is later rendered with `sorted(...)`. -/
def insSorted (k : Int) : List Int → List Int
  | [] => [k]
  | x :: xs =>
    if k < x then k :: x :: xs
    else if k = x then x :: xs
    else x :: insSorted k xs

/-- The loop `for k in range(a, b + 1): if 1 <= k <= max_n: sel.add(k)`. -/
def rangeAdd (a b maxN : Int) (sel : List Int) : List Int :=
  ((List.range (b + 1 - a).toNat).map (fun j => a + (j : Int))).foldl
    (fun s k => if 1 ≤ k ∧ k ≤ maxN then insSorted k s else s) sel

/-- Handling of one comma-separated token of `_parse_indices`. -/
def parsePart (maxN : Int) (sel : List Int) (part : List Char) : List Int :=
  if part = [] then sel
  else if part.contains '-' then
    match pyInt (splitOnceDash part).1, pyInt (splitOnceDash part).2 with
    | some a0, some b0 =>
      let a := if a0 > b0 then b0 else a0
      let b := if a0 > b0 then a0 else b0
      rangeAdd a b maxN sel
    | _, _ => sel
  else
    match pyInt part with
    | some k => if 1 ≤ k ∧ k ≤ maxN then insSorted k sel else sel
    | none => sel

/-- `_parse_indices(text, max_n)`: spaces removed, comma-separated tokens
parsed as single indices or auto-swapped inclusive ranges, malformed tokens
skipped, out-of-range values dropped, result sorted and duplicate-free. -/
def parseIndices (text : String) (maxN : Int) : List Int :=
  (splitComma (text.data.filter (fun c => c != ' '))).foldl (parsePart maxN) []

/-- Membership in an `insSorted` insertion. -/
lemma mem_insSorted (k x : Int) :
    ∀ l, x ∈ insSorted k l ↔ x = k ∨ x ∈ l := by
  intro l
  induction l with
  | nil => simp [insSorted]
  | cons a as ih =>
    simp only [insSorted]
    split_ifs with h1 h2
    · simp [List.mem_cons]
    · subst h2
      simp only [List.mem_cons]
      tauto
    · simp only [List.mem_cons, ih]
      tauto

/-- `insSorted` preserves strict ascending order. -/
lemma sorted_insSorted (k : Int) :
    ∀ l, l.Sorted (· < ·) → (insSorted k l).Sorted (· < ·) := by
  intro l
  induction l with
  | nil => intro _; simp [insSorted]
  | cons a as ih =>
    intro hs
    rw [List.sorted_cons] at hs
    obtain ⟨ha, has⟩ := hs
    simp only [insSorted]
    split_ifs with h1 h2
    · rw [List.sorted_cons]
      refine ⟨?_, by rw [List.sorted_cons]; exact ⟨ha, has⟩⟩
      intro b hb
      rcases List.mem_cons.mp hb with rfl | hb
      · exact h1
      · exact lt_trans h1 (ha b hb)
    · rw [List.sorted_cons]
      exact ⟨ha, has⟩
    · rw [List.sorted_cons]
      refine ⟨?_, ih has⟩
      intro b hb
      rw [mem_insSorted] at hb
      rcases hb with rfl | hb
      · omega
      · exact ha b hb

/-- The bounded-insert fold used for ranges only adds in-range values and
keeps the accumulator sorted. -/
lemma guardedFold_inv (maxN : Int) :
    ∀ (l : List Int) (sel : List Int),
      ((∀ x ∈ sel, 1 ≤ x ∧ x ≤ maxN) ∧ sel.Sorted (· < ·)) →
      (∀ x ∈ l.foldl
          (fun s k => if 1 ≤ k ∧ k ≤ maxN then insSorted k s else s) sel,
          1 ≤ x ∧ x ≤ maxN) ∧
      (l.foldl
          (fun s k => if 1 ≤ k ∧ k ≤ maxN then insSorted k s else s)
          sel).Sorted (· < ·) := by
  intro l
  induction l with
  | nil => intro sel h; exact h
  | cons a as ih =>
    intro sel h
    simp only [List.foldl_cons]
    apply ih
    split_ifs with hguard
    · constructor
      · intro x hx
        rw [mem_insSorted] at hx
        rcases hx with rfl | hx
        · exact hguard
        · exact h.1 x hx
      · exact sorted_insSorted a sel h.2
    · exact h

/-- `parsePart` preserves boundedness and sortedness of the accumulator. -/
lemma parsePart_inv (maxN : Int) (sel : List Int) (part : List Char)
    (h : (∀ x ∈ sel, 1 ≤ x ∧ x ≤ maxN) ∧ sel.Sorted (· < ·)) :
    (∀ x ∈ parsePart maxN sel part, 1 ≤ x ∧ x ≤ maxN) ∧
    (parsePart maxN sel part).Sorted (· < ·) := by
  unfold parsePart
  split_ifs with h1 h2
  · exact h
  · rcases pyInt (splitOnceDash part).1 with _ | a0 <;>
      rcases pyInt (splitOnceDash part).2 with _ | b0 <;>
      simp only
    · exact h
    · exact h
    · exact h
    · exact guardedFold_inv maxN _ sel h
  · rcases pyInt part with _ | k
    · exact h
    · simp only
      split_ifs with hguard
      · constructor
        · intro x hx
          rw [mem_insSorted] at hx
          rcases hx with rfl | hx
          · exact hguard
          · exact h.1 x hx
        · exact sorted_insSorted k sel h.2
      · exact h

/-- The token fold preserves boundedness and sortedness. -/
lemma partsFold_inv (maxN : Int) :
    ∀ (parts : List (List Char)) (sel : List Int),
      ((∀ x ∈ sel, 1 ≤ x ∧ x ≤ maxN) ∧ sel.Sorted (· < ·)) →
      (∀ x ∈ parts.foldl (parsePart maxN) sel, 1 ≤ x ∧ x ≤ maxN) ∧
      (parts.foldl (parsePart maxN) sel).Sorted (· < ·) := by
  intro parts
  induction parts with
  | nil => intro sel h; exact h
  | cons p ps ih =>
    intro sel h
    simp only [List.foldl_cons]
    exact ih _ (parsePart_inv maxN sel p h)

/-- Claim C7: the selection parser maps `"1,5-8"` (max 10) to `{1,5,6,7,8}`,
auto-swaps the reversed range `"3-1"` to `{1,2,3}`, drops the out-of-range
values of `"0,11"`, silently skips the malformed token of `"abc,2"`, and for
every input string and bound the result is strictly ascending (hence
duplicate-free) with every element in `[1, max]`. -/
theorem parse_indices_spec :
    parseIndices "1,5-8" 10 = [1, 5, 6, 7, 8] ∧
    parseIndices "3-1" 10 = [1, 2, 3] ∧
    parseIndices "0,11" 10 = [] ∧
    parseIndices "abc,2" 5 = [2] ∧
    ∀ (text : String) (maxN : Int),
      (parseIndices text maxN).Sorted (· < ·) ∧
      ∀ k ∈ parseIndices text maxN, 1 ≤ k ∧ k ≤ maxN := by
  refine ⟨by decide, by decide, by decide, by decide, ?_⟩
  intro text maxN
  have h := partsFold_inv maxN
    (splitComma (text.data.filter (fun c => c != ' '))) []
    ⟨by simp, by simp⟩
  exact ⟨h.2, h.1⟩

/-- Witness for C7: the element 2 of `parseSelection("abc,2", max=5)` is
within bounds. -/
theorem parse_indices_spec_witness : (1 : Int) ≤ 2 ∧ (2 : Int) ≤ 5 :=
  (parse_indices_spec.2.2.2.2 "abc,2" 5).2 2 (by decide)

/-! ## Extension resolution: `_guess_ext_from_headers`, `_ext_from_url`,
and the combination in `download_all` -/

/-- ASCII lower-casing of one character, as Python `str.lower()` does on the
ASCII header and URL text handled here. -/
def lowerChar (c : Char) : Char :=
  if 'A' ≤ c ∧ c ≤ 'Z' then Char.ofNat (c.toNat + 32) else c

/-- ASCII lower-casing of a character list. -/
def lowerStr (s : List Char) : List Char := s.map lowerChar

/-- Does the second list start with the first? -/
def startsWithL : List Char → List Char → Bool
  | [], _ => true
  | _ :: _, [] => false
  | p :: ps, c :: cs => p == c && startsWithL ps cs

/-- Python `pat in s` substring containment on character lists. -/
def containsSeq (pat : List Char) : List Char → Bool
  | [] => startsWithL pat []
  | c :: cs => startsWithL pat (c :: cs) || containsSeq pat cs

/-- Python `pat in s` on strings. -/
def strContains (s pat : String) : Bool := containsSeq pat.data s.data

/-- The fixed Content-Type table of `_guess_ext_from_headers`, checked by
substring containment on the lower-cased header in source order. -/
def tableExt (ctypeRaw : String) : Option String :=
  let ctype := String.mk (lowerStr ctypeRaw.data)
  if strContains ctype "image/jpeg" then some ".jpg"
  else if strContains ctype "image/png" then some ".png"
  else if strContains ctype "image/heic" || strContains ctype "image/heif" then
    some ".heic"
  else if strContains ctype "video/mp4" then some ".mp4"
  else if strContains ctype "video/quicktime" then some ".mov"
  else none

/-- Python `os.path.splitext(name)[1]`: the suffix from the last dot, except
that a run of leading dots never starts an extension.  (Disposition filenames
are bare names, so path separators are not treated specially.) -/
def splitextSuffix (name : String) : String :=
  let cs := name.data
  match cs.reverse.findIdx? (fun c => c == '.') with
  | none => ""
  | some k =>
    let dotPos := cs.length - 1 - k
    if (cs.take dotPos).any (fun c => c != '.') then String.mk (cs.drop dotPos)
    else ""

/-- The `Content-Disposition` branch of `_guess_ext_from_headers`: `cdName`
is the filename the `filename=` pattern extracted from the header (or `none`
when the header is absent or the pattern finds nothing); a nonempty
`splitext` suffix of it is returned. -/
def cdSuffix (cdName : Option String) : Option String :=
  match cdName with
  | some name =>
    let suf := splitextSuffix name
    if suf ≠ "" then some suf else none
  | none => none

/-- `_guess_ext_from_headers(r, fallback)`: Content-Type table first, then
the Content-Disposition filename suffix, then the caller's fallback. -/
def guessExtFromHeaders (ctype : String) (cdName : Option String)
    (fallback : String) : String :=
  match tableExt ctype with
  | some e => e
  | none =>
    match cdSuffix cdName with
    | some suf => suf
    | none => fallback

/-- Character class `[a-z0-9]` of the URL-extension regex under `re.I`. -/
def isExtChar (c : Char) : Bool := c.isAlpha || c.isDigit

/-- One greedy alternative of `\.([a-z0-9]{2,4})(?:\?|$)`: exactly `n`
extension characters followed by `?` or the end of the string. -/
def tryLen (cs : List Char) (n : Nat) : Option (List Char) :=
  let pre := cs.take n
  if pre.length = n ∧ pre.all isExtChar then
    match cs.drop n with
    | [] => some pre
    | '?' :: _ => some pre
    | _ => none
  else none

/-- Greedy `{2,4}` with backtracking: longest first. -/
def extMatchAfterDot (cs : List Char) : Option (List Char) :=
  match tryLen cs 4 with
  | some e => some e
  | none =>
    match tryLen cs 3 with
    | some e => some e
    | none => tryLen cs 2

/-- `re.search` left-to-right scan for the `\.([a-z0-9]{2,4})(?:\?|$)`
pattern: the match must start at a dot. -/
def extScan : List Char → Option (List Char)
  | [] => none
  | c :: rest =>
    if c = '.' then
      match extMatchAfterDot rest with
      | some e => some e
      | none => extScan rest
    else extScan rest

/-- `_ext_from_url(url)`: `"." + match.group(1).lower()` or `""`. -/
def extFromUrl (url : String) : String :=
  match extScan url.data with
  | some e => String.mk ('.' :: lowerStr e)
  | none => ""

/-- The extension choice of `download_all` (lines 442–446): header guess
first; if it is `.bin` or empty, a nonempty URL-derived extension replaces
it. -/
def chooseExt (ctype : String) (cdName : Option String)
    (finalUrl fallback : String) : String :=
  let ext := guessExtFromHeaders ctype cdName fallback
  if ext = ".bin" ∨ ext = "" then
    let fromUrl := extFromUrl finalUrl
    if fromUrl ≠ "" then fromUrl else ext
  else ext

/-- Counterexample to claim C5: with an empty Content-Type, no disposition
filename, and a URL ending `.../file.heic?sig=...`, the URL suffix `.heic` is
parseable, yet the code returns the caller fallback `.jpg` — the URL is never
consulted because `_guess_ext_from_headers` already returned the nonempty
fallback, which is not in `{".bin", ""}`. -/
theorem choose_ext_url_counterexample :
    extFromUrl "https://example.test/file.heic?sig=abc" = ".heic" ∧
    chooseExt "" none "https://example.test/file.heic?sig=abc" ".jpg" = ".jpg" ∧
    chooseExt "" none "https://example.test/file.heic?sig=abc" ".jpg" ≠ ".heic" :=
  ⟨by decide, by decide, by decide⟩

/-- Claim C5 as amended: an exact Content-Type table match wins regardless of
URL and disposition; the URL-derived extension is used exactly when the header
guess (type table, then disposition, then fallback) produced `.bin` or empty —
which the fallback threading restricts to disposition-derived `.bin`; and
whenever type and disposition yield nothing the caller-supplied fallback is
returned regardless of the URL. -/
theorem choose_ext_priority_amended :
    (∀ (cd : Option String) (url fb : String),
      chooseExt "image/png" cd url fb = ".png") ∧
    (∀ (ctype : String) (cd : Option String) (url fb : String),
      (guessExtFromHeaders ctype cd fb = ".bin" ∨
       guessExtFromHeaders ctype cd fb = "") →
      extFromUrl url ≠ "" →
      chooseExt ctype cd url fb = extFromUrl url) ∧
    (∀ (ctype : String) (cd : Option String) (url fb : String),
      tableExt ctype = none → cdSuffix cd = none → fb ≠ ".bin" → fb ≠ "" →
      chooseExt ctype cd url fb = fb) := by
  refine ⟨?_, ?_, ?_⟩
  · intro cd url fb
    simp only [chooseExt, guessExtFromHeaders]
    rw [show tableExt "image/png" = some ".png" from by decide]
    rw [if_neg (by decide : ¬(".png" = ".bin" ∨ ".png" = ""))]
  · intro ctype cd url fb hg hurl
    simp only [chooseExt]
    rw [if_pos hg, if_pos hurl]
  · intro ctype cd url fb htable hcd hb he
    simp only [chooseExt, guessExtFromHeaders]
    rw [htable, hcd]
    rw [if_neg (by tauto : ¬(fb = ".bin" ∨ fb = ""))]

/-- Witness for the amended C5: the table match wins, a disposition-derived
`.bin` hands over to the URL suffix, and an unknown type with no disposition
yields the fallback. -/
theorem choose_ext_priority_amended_witness :
    chooseExt "image/png" none "https://x.test/y.heic?s=1" ".jpg" = ".png" ∧
    chooseExt "" (some "photo.bin") "https://example.test/file.heic?sig=abc"
      ".mp4" = ".heic" ∧
    chooseExt "text/html" none "https://x/y" ".mp4" = ".mp4" := by
  refine ⟨choose_ext_priority_amended.1 none _ _, ?_, ?_⟩
  · have h := choose_ext_priority_amended.2.1 "" (some "photo.bin")
      "https://example.test/file.heic?sig=abc" ".mp4" (by decide) (by decide)
    rw [h]
    decide
  · exact choose_ext_priority_amended.2.2 "text/html" none "https://x/y" ".mp4"
      (by decide) (by decide) (by decide) (by decide)

/-! ## Media resolution: `_resolve_media_response` -/

/-- A parsed JSON value as `json.loads` yields it.  Numbers are modelled as
integers; the claims only involve string-valued fields. -/
inductive JVal
  | str (s : String)
  | num (n : Int)
  | bool (b : Bool)
  | null
  | obj (fields : List (String × JVal))
  | arr (xs : List JVal)

/-- Python truthiness of a JSON value, as used by `data.get(k)` in a boolean
context. -/
def truthy : JVal → Bool
  | .str s => s != ""
  | .num n => n != 0
  | .bool b => b
  | .null => false
  | .obj fields => !fields.isEmpty
  | .arr xs => !xs.isEmpty

/-- Python dict lookup on the parsed object: `json.loads` builds the dict by
overwriting duplicate keys, so the last binding wins. -/
def dictGet (fields : List (String × JVal)) (k : String) : Option JVal :=
  fields.foldl (fun acc p => if p.1 = k then some p.2 else acc) none

/-- Python `str()` of a JSON value.  Only the string case is exercised by the
claims; container reprs are abbreviated. -/
def pyStr : JVal → String
  | .str s => s
  | .num n => toString n
  | .bool b => if b then "True" else "False"
  | .null => "None"
  | .obj _ => "{}"
  | .arr _ => "[]"

/-- The key priority list of `_resolve_media_response`. -/
def mediaKeys : List String := ["url", "signedUrl", "download_url", "mediaUrl"]

/-- The loop `for k in (...): if data.get(k): new_url = str(data[k]); break`
over the priority keys: first key with a truthy value wins. -/
def firstKeyChain (fields : List (String × JVal)) : Option String :=
  match mediaKeys.find? (fun k => ((dictGet fields k).map truthy).getD false) with
  | some k => (dictGet fields k).map pyStr
  | none => none

/-- The response body as the resolver's three standard-library probes see it:
the `json.loads` result (`none` when parsing raises), the first
`https://...amazonaws...` regex match, and the first
`https://...\.(jpg|jpeg|png|mp4|mov)(\?...)?` regex match on the decoded
text. -/
structure BodyModel where
  json : Option JVal
  amazon : Option String
  mediaUrlMatch : Option String

/-- A streaming HTTP response as `_resolve_media_response` and
`download_all` observe it: status, final URL, Content-Type header, the
filename extracted from Content-Disposition (if any), the parsed body
probes, and the number of chunks `iter_content` will yield. -/
structure RResp where
  status : Nat
  url : String
  ctype : String
  cdName : Option String
  body : BodyModel
  chunks : Nat

/-- `_looks_like_media_contenttype`: lower-cased type starts with `image/` or
`video/`, or contains `octet-stream`. -/
def looksLikeMedia (ctype : String) : Bool :=
  let c := lowerStr ctype.data
  startsWithL "image/".data c || startsWithL "video/".data c ||
    containsSeq "octet-stream".data c

/-- JSON-based indirection extraction: only a parsed dict is consulted. -/
def jsonExtract (b : BodyModel) : Option String :=
  match b.json with
  | some (.obj fields) => firstKeyChain fields
  | _ => none

/-- The full extraction order of `_resolve_media_response`: JSON keys, then
the Amazon-storage regex, then the media-suffix regex. -/
def extractUrl (b : BodyModel) : Option String :=
  match jsonExtract b with
  | some u => some u
  | none =>
    match b.amazon with
    | some u => some u
    | none => b.mediaUrlMatch

/-- `_resolve_media_response(session, url)`.  `env` abstracts
`_request_with_fallback` per URL (its internals are modelled separately);
the second component lists the URLs actually requested. -/
def resolveMedia (env : String → Except Nat RResp) (url : String) :
    Except Nat (RResp × String) × List String :=
  match env url with
  | .error e => (.error e, [url])
  | .ok r =>
    if 400 ≤ r.status ∧ r.status ≠ 403 ∧ r.status ≠ 405 then
      (.ok (r, r.url), [url])
    else if looksLikeMedia r.ctype then (.ok (r, r.url), [url])
    else
      match extractUrl r.body with
      | some u =>
        (match env u with
         | .error e => .error e
         | .ok r2 => .ok (r2, u), [url, u])
      | none => (.ok (r, r.url), [url])

/-- Claim C2: when the first response's status is below 400 (or is 403/405),
its Content-Type is not media, and its body parses as a JSON object whose
priority-key chain (`url`, `signedUrl`, `download_url`, `mediaUrl`, first
truthy value) yields `u`, a second request is issued against `u` and the
returned `finalUrl` equals `u`; a first response with status ≥ 400 outside
{403, 405} is returned unchanged with no indirection attempted; at most one
indirection hop is ever followed; and for the spec's example body
`{"url": S}` the chain yields exactly `S`. -/
theorem resolve_media_indirection (env : String → Except Nat RResp)
    (url : String) :
    (∀ (r : RResp) (fields : List (String × JVal)) (u : String),
      env url = .ok r →
      ¬(400 ≤ r.status ∧ r.status ≠ 403 ∧ r.status ≠ 405) →
      looksLikeMedia r.ctype = false →
      r.body.json = some (.obj fields) →
      firstKeyChain fields = some u →
      (resolveMedia env url).2 = [url, u] ∧
      ∀ r2, env u = .ok r2 → (resolveMedia env url).1 = .ok (r2, u)) ∧
    (∀ r : RResp, env url = .ok r →
      400 ≤ r.status → r.status ≠ 403 → r.status ≠ 405 →
      resolveMedia env url = (.ok (r, r.url), [url])) ∧
    (resolveMedia env url).2.length ≤ 2 ∧
    (∀ S : String, S ≠ "" → firstKeyChain [("url", .str S)] = some S) := by
  refine ⟨?_, ?_, ?_, ?_⟩
  · intro r fields u henv hstatus hmedia hjson hchain
    have hextract : extractUrl r.body = some u := by
      simp only [extractUrl, jsonExtract, hjson, hchain]
    have hres : resolveMedia env url =
        (match env u with
         | .error e => .error e
         | .ok r2 => .ok (r2, u), [url, u]) := by
      simp only [resolveMedia, henv]
      rw [if_neg hstatus]
      rw [if_neg (show ¬looksLikeMedia r.ctype = true by simp [hmedia])]
      simp only [hextract]
    constructor
    · rw [hres]
    · intro r2 henv2
      rw [hres]
      simp only [henv2]
  · intro r henv h400 h403 h405
    simp only [resolveMedia, henv]
    rw [if_pos ⟨h400, h403, h405⟩]
  · rcases henv : env url with e | r
    · simp [resolveMedia, henv]
    · simp only [resolveMedia, henv]
      split_ifs
      · simp
      · simp
      · rcases extractUrl r.body with _ | u <;> simp
  · intro S hS
    have hb : (S != "") = true := by simp [hS]
    simp [firstKeyChain, mediaKeys, dictGet, truthy, pyStr, List.find?, hb]

/-- Embedded Amazon-storage URL used by the C2 witness environment. -/
def s3url : String := "https://bucket.s3.amazonaws.com/x.mp4"

/-- First response of the C2 witness: JSON wrapper with an embedded URL. -/
def rJson : RResp :=
  ⟨200, "https://app.test/m", "application/json", none,
   ⟨some (.obj [("url", .str s3url)]), none, none⟩, 0⟩

/-- Second response of the C2 witness: the actual media stream. -/
def rMedia : RResp := ⟨200, s3url, "video/mp4", none, ⟨none, none, none⟩, 10⟩

/-- Witness environment for C2: the start URL answers with the JSON wrapper,
the embedded URL with the media response. -/
def envC2 : String → Except Nat RResp :=
  fun u => if u = s3url then .ok rMedia else .ok rJson

/-- Witness for C2: on the spec's JSON-wrapper scenario the resolver requests
the embedded URL and returns it as `finalUrl`. -/
theorem resolve_media_indirection_witness :
    (resolveMedia envC2 "https://app.test/start").2 =
      ["https://app.test/start", s3url] ∧
    (resolveMedia envC2 "https://app.test/start").1 = .ok (rMedia, s3url) := by
  have h := (resolve_media_indirection envC2 "https://app.test/start").1
    rJson [("url", .str s3url)] s3url rfl
    (by decide) (by decide) rfl
    ((resolve_media_indirection envC2 "https://app.test/start").2.2.2 s3url
      (by decide))
  exact ⟨h.1, h.2 rMedia rfl⟩

/-! ## File system model and the transcoder: `_ensure_h264_mp4`

Files live in a `Finset` of structured paths.  File stems mirror the
distinct f-string shapes the source uses (`memory_<idx>`,
`<stem>_tmpconv`, `response_<i>_status<code>`, `response_<i>`), which never
collide as strings because a `memory_` stem continues with digits only. -/

/-- File stem (name without suffix). -/
inductive Stem
  | mem (idx : Int)
  | tmpconv (s : Stem)
  | debugTxt (i : Nat) (status : Nat)
  | debugHtml (i : Nat)
deriving DecidableEq, Repr

/-- Output directory of a file. -/
inductive Dir
  | images
  | videos
  | debug
deriving DecidableEq, Repr

/-- A concrete file path: directory, stem and suffix. -/
structure PathT where
  dir : Dir
  stem : Stem
  suffix : String
deriving DecidableEq, Repr

/-- `Path.with_suffix(e)`: replace the suffix, keep directory and stem. -/
def withSuffix (p : PathT) (e : String) : PathT := {p with suffix := e}

/-- `src_path.with_suffix('.mp4')` in `_ensure_h264_mp4`. -/
def finalOf (src : PathT) : PathT := withSuffix src ".mp4"

/-- `final_path.parent / (final_path.stem + "_tmpconv.mp4")`. -/
def tmpPathOf (src : PathT) : PathT :=
  ⟨(finalOf src).dir, .tmpconv (finalOf src).stem, ".mp4"⟩

/-- `_ensure_h264_mp4(src_path, log)` acting on the file-set.  `ffmpegAvail`
abstracts `_has_ffmpeg()`, `convOk` the success of `_convert_to_h264_mp4`,
and `convLeavesTemp` whether a failed conversion left a partial temp file
behind.  Filesystem calls are modelled as succeeding (unlink of an existing
file, replace); returns the final path on success as the source does. -/
def ensureH264 (fs : Finset PathT) (ffmpegAvail convOk convLeavesTemp : Bool)
    (src : PathT) : Option PathT × Finset PathT :=
  match ffmpegAvail with
  | false => (none, fs)
  | true =>
    let finalP := finalOf src
    let temp := tmpPathOf src
    let fs1 := fs.erase temp
    match convOk with
    | true =>
      let fs2 := insert temp fs1
      let fs3 := fs2.erase finalP
      let fs4 := insert finalP (fs3.erase temp)
      if src ∈ fs4 ∧ src ≠ finalP then (some finalP, fs4.erase src)
      else (some finalP, fs4)
    | false =>
      let fs2 := if convLeavesTemp then insert temp fs1 else fs1
      (none, fs2.erase temp)

/-- A `_tmpconv`-suffixed stem never equals its base stem. -/
lemma stem_tmpconv_ne : ∀ s : Stem, Stem.tmpconv s ≠ s := by
  intro s
  induction s with
  | mem idx => intro h; exact Stem.noConfusion h
  | tmpconv s ih => intro h; injection h with h'; exact ih h'
  | debugTxt i st => intro h; exact Stem.noConfusion h
  | debugHtml i => intro h; exact Stem.noConfusion h

/-- The temp file is a distinct sibling of the source. -/
lemma tmp_ne_src (src : PathT) : tmpPathOf src ≠ src := by
  intro h
  have hs : (tmpPathOf src).stem = src.stem := congrArg PathT.stem h
  simp only [tmpPathOf, finalOf, withSuffix] at hs
  exact stem_tmpconv_ne _ hs

/-- The temp file is distinct from the final path. -/
lemma tmp_ne_final (src : PathT) : tmpPathOf src ≠ finalOf src := by
  intro h
  have hs : (tmpPathOf src).stem = (finalOf src).stem := congrArg PathT.stem h
  simp only [tmpPathOf, finalOf, withSuffix] at hs
  exact stem_tmpconv_ne _ hs

/-- With the tool unavailable the operation is a no-op returning `None`. -/
lemma ensureH264_unavail (fs : Finset PathT) (convOk leaves : Bool)
    (src : PathT) : ensureH264 fs false convOk leaves src = (none, fs) := rfl

/-- On conversion failure the temp file is removed and nothing else moves. -/
lemma ensureH264_fail (fs : Finset PathT) (leaves : Bool) (src : PathT) :
    ensureH264 fs true false leaves src = (none, fs.erase (tmpPathOf src)) := by
  cases leaves with
  | false =>
    show (none, (fs.erase (tmpPathOf src)).erase (tmpPathOf src)) = _
    rw [Finset.erase_idem]
  | true =>
    show (none,
      (insert (tmpPathOf src) (fs.erase (tmpPathOf src))).erase (tmpPathOf src)) = _
    rw [Finset.erase_insert (Finset.not_mem_erase _ _)]

/-- On success the result collapses to an insert of the final path over the
file set cleared of temp and final, minus the original when distinct. -/
lemma ensureH264_ok_eq (fs : Finset PathT) (leaves : Bool) (src : PathT) :
    ensureH264 fs true true leaves src =
      (if src ∈ insert (finalOf src) ((fs.erase (tmpPathOf src)).erase (finalOf src))
          ∧ src ≠ finalOf src
       then (some (finalOf src),
         (insert (finalOf src)
           ((fs.erase (tmpPathOf src)).erase (finalOf src))).erase src)
       else (some (finalOf src),
         insert (finalOf src) ((fs.erase (tmpPathOf src)).erase (finalOf src)))) := by
  have hcollapse : ((insert (tmpPathOf src) (fs.erase (tmpPathOf src))).erase
      (finalOf src)).erase (tmpPathOf src) =
      (fs.erase (tmpPathOf src)).erase (finalOf src) := by
    rw [Finset.erase_insert_of_ne (tmp_ne_final src)]
    refine Finset.erase_insert ?_
    intro h
    exact Finset.not_mem_erase _ _ (Finset.mem_of_mem_erase h)
  show (if src ∈ insert (finalOf src)
          (((insert (tmpPathOf src) (fs.erase (tmpPathOf src))).erase
            (finalOf src)).erase (tmpPathOf src)) ∧ src ≠ finalOf src
        then _ else _) = _
  rw [hcollapse]

/-- Claim C3: `_ensure_h264_mp4` always converts into a distinct temporary
sibling (never reading and writing the same path), swaps it in as
`<stem>.mp4` deleting any pre-existing file there, and deletes the original
only after the swap; on conversion failure the temp file is removed and the
original left untouched, so after a successful run the temp and final files
never coexist, and after a tool failure the original exists and no `.mp4`
appears; all other paths are untouched in every case. -/
theorem ensure_h264_swap_safety (fs : Finset PathT)
    (avail convOk leaves : Bool) (src : PathT) :
    tmpPathOf src ≠ src ∧
    tmpPathOf src ≠ finalOf src ∧
    (avail = true → convOk = true →
      (ensureH264 fs avail convOk leaves src).1 = some (finalOf src) ∧
      finalOf src ∈ (ensureH264 fs avail convOk leaves src).2 ∧
      tmpPathOf src ∉ (ensureH264 fs avail convOk leaves src).2 ∧
      (src ≠ finalOf src → src ∉ (ensureH264 fs avail convOk leaves src).2)) ∧
    (avail = true → convOk = false →
      (ensureH264 fs avail convOk leaves src).1 = none ∧
      (ensureH264 fs avail convOk leaves src).2 = fs.erase (tmpPathOf src) ∧
      (src ∈ fs → src ∈ (ensureH264 fs avail convOk leaves src).2) ∧
      (finalOf src ∉ fs →
        finalOf src ∉ (ensureH264 fs avail convOk leaves src).2)) ∧
    (avail = false → ensureH264 fs avail convOk leaves src = (none, fs)) ∧
    (∀ p : PathT, p ≠ src → p ≠ tmpPathOf src → p ≠ finalOf src →
      (p ∈ (ensureH264 fs avail convOk leaves src).2 ↔ p ∈ fs)) := by
  have htempB : tmpPathOf src ∉
      insert (finalOf src) ((fs.erase (tmpPathOf src)).erase (finalOf src)) := by
    intro h
    rcases Finset.mem_insert.mp h with h1 | h1
    · exact tmp_ne_final src h1
    · exact Finset.not_mem_erase _ _ (Finset.mem_of_mem_erase h1)
  refine ⟨tmp_ne_src src, tmp_ne_final src, ?_, ?_, ?_, ?_⟩
  · rintro rfl rfl
    rw [ensureH264_ok_eq]
    split_ifs with hc
    · refine ⟨rfl, ?_, ?_, ?_⟩
      · exact Finset.mem_erase.mpr
          ⟨fun h => hc.2 h.symm, Finset.mem_insert_self _ _⟩
      · intro h
        exact htempB (Finset.mem_of_mem_erase h)
      · intro _
        exact Finset.not_mem_erase _ _
    · refine ⟨rfl, Finset.mem_insert_self _ _, htempB, ?_⟩
      intro hsf hmem
      exact hc ⟨hmem, hsf⟩
  · rintro rfl rfl
    rw [ensureH264_fail]
    refine ⟨rfl, rfl, ?_, ?_⟩
    · intro hsrc
      exact Finset.mem_erase.mpr ⟨fun h => tmp_ne_src src h.symm, hsrc⟩
    · intro hfin hmem
      exact hfin (Finset.mem_of_mem_erase hmem)
  · rintro rfl
    exact ensureH264_unavail fs convOk leaves src
  · intro p hps hpt hpf
    cases avail with
    | false =>
      rw [ensureH264_unavail]
    | true =>
      cases convOk with
      | false =>
        rw [ensureH264_fail]
        simp [Finset.mem_erase, hpt]
      | true =>
        rw [ensureH264_ok_eq]
        split_ifs with hc
        · simp [Finset.mem_erase, Finset.mem_insert, hps, hpt, hpf]
        · simp [Finset.mem_insert, Finset.mem_erase, hpt, hpf]

/-- Witness for C3: converting `videos/memory_1.mov` with the tool available
and the conversion succeeding yields `videos/memory_1.mp4`, with no temp file
left and the original gone. -/
theorem ensure_h264_swap_safety_witness :
    (ensureH264 {⟨.videos, .mem 1, ".mov"⟩} true true false
        ⟨.videos, .mem 1, ".mov"⟩).1 = some (finalOf ⟨.videos, .mem 1, ".mov"⟩) ∧
    finalOf ⟨.videos, .mem 1, ".mov"⟩ ∈
      (ensureH264 {⟨.videos, .mem 1, ".mov"⟩} true true false
        ⟨.videos, .mem 1, ".mov"⟩).2 ∧
    tmpPathOf ⟨.videos, .mem 1, ".mov"⟩ ∉
      (ensureH264 {⟨.videos, .mem 1, ".mov"⟩} true true false
        ⟨.videos, .mem 1, ".mov"⟩).2 ∧
    (⟨.videos, .mem 1, ".mov"⟩ : PathT) ∉
      (ensureH264 {⟨.videos, .mem 1, ".mov"⟩} true true false
        ⟨.videos, .mem 1, ".mov"⟩).2 := by
  have h := (ensure_h264_swap_safety {⟨.videos, .mem 1, ".mov"⟩} true true false
    ⟨.videos, .mem 1, ".mov"⟩).2.2.1 rfl rfl
  exact ⟨h.1, h.2.1, h.2.2.1, h.2.2.2 (by decide)⟩

/-! ## Orchestrator: `download_all`

The per-item loop of `download_all` is modelled as a fold over the work
list.  Network and transcoder behaviour are per-item oracles; the stop
event is a boolean signal indexed by a global poll counter (one poll at
each loop top and one before each streamed chunk), which models a
write-once `threading.Event` when the signal is monotone. -/

/-- One parsed index row: the download URL and the media-type cell text. -/
structure ItemSpec where
  url : String
  mediaText : String
deriving DecidableEq, Repr

/-- Environment for processing one work item: what `_resolve_media_response`
yields for it (a raised network error or a response with its final URL), and
the transcoder behaviour flags of `ensureH264`. -/
structure ItemEnv where
  resolveRes : Except Nat (RResp × String)
  ffmpegAvail : Bool
  convOk : Bool
  convLeavesTemp : Bool

/-- Orchestrator state: the `ok`/`fail` counters, the `failed_out` list, the
file set, the poll counter, and — as specification instrumentation — the
successfully finished items with their saved paths. -/
structure DState where
  okCount : Nat
  failCount : Nat
  failedOut : List Int
  fs : Finset PathT
  polls : Nat
  completed : List (Int × PathT)

/-- `"video" in media_text`. -/
def isVideoOf (mediaText : String) : Bool := strContains mediaText "video"

/-- `default_ext = ".mp4" if is_video else ".jpg"`. -/
def defaultExtOf (isVid : Bool) : String := if isVid then ".mp4" else ".jpg"

/-- `dest = folder / f"memory_{idx}{default_ext}"`. -/
def destFor (idx : Int) (isVid : Bool) : PathT :=
  ⟨if isVid then .videos else .images, .mem idx, defaultExtOf isVid⟩

/-- The destination after the extension choice: the suffix is replaced only
when it differs (case-insensitively) from the resolved extension. -/
def destAdjusted (idx : Int) (isVid : Bool) (r : RResp) (finalUrl : String) :
    PathT :=
  let dest0 := destFor idx isVid
  let ext := chooseExt r.ctype r.cdName finalUrl (defaultExtOf isVid)
  if String.mk (lowerStr dest0.suffix.data) ≠ String.mk (lowerStr ext.data) then
    withSuffix dest0 ext
  else dest0

/-- The shared failure path of the per-item `except` clause: bump the fail
counter and append the source position to `failed_out`. -/
def failStep (idx : Int) (s : DState) : DState :=
  {s with failCount := s.failCount + 1, failedOut := s.failedOut ++ [idx]}

/-- The chunk loop: before writing each chunk the stop event is polled; when
it is set the partial destination file is unlinked and the item aborts.
Returns (completed?, file set, poll counter). -/
def streamChunks (stop : Nat → Bool) (dest : PathT) :
    Nat → Finset PathT → Nat → Bool × Finset PathT × Nat
  | 0, fs, polls => (true, fs, polls)
  | n + 1, fs, polls =>
    if stop polls then (false, fs.erase dest, polls + 1)
    else streamChunks stop dest n fs (polls + 1)

/-- Processing of one work item of `download_all`: resolve; on status ≥ 400
dump `response_<i>_status<code>.txt` and fail; on a non-media Content-Type
dump `response_<i>.html` and fail; otherwise choose the extension, open the
destination (creating the file), stream chunks with cancellation polling,
count the success, and for video items run the transcoder, whose outcome
never turns the item into a failure.  `i` is the 1-based rank in the work
list, `idx` the 1-based source position. -/
def processItem (stop : Nat → Bool) (e : ItemEnv) (i : Nat) (idx : Int)
    (it : ItemSpec) (s : DState) : DState :=
  let isVid := isVideoOf it.mediaText
  match e.resolveRes with
  | .error _ => failStep idx s
  | .ok (r, finalUrl) =>
    if 400 ≤ r.status then
      failStep idx
        {s with fs := insert ⟨.debug, .debugTxt i r.status, ".txt"⟩ s.fs}
    else if ¬ looksLikeMedia r.ctype then
      failStep idx {s with fs := insert ⟨.debug, .debugHtml i, ".html"⟩ s.fs}
    else
      let dest := destAdjusted idx isVid r finalUrl
      match streamChunks stop dest r.chunks (insert dest s.fs) s.polls with
      | (false, fs2, polls2) =>
        failStep idx {s with fs := fs2, polls := polls2}
      | (true, fs2, polls2) =>
        let s1 := {s with fs := fs2, polls := polls2, okCount := s.okCount + 1}
        if isVid then
          match ensureH264 s1.fs e.ffmpegAvail e.convOk e.convLeavesTemp dest with
          | (some finalP, fs3) =>
            {s1 with fs := fs3, completed := s1.completed ++ [(idx, finalP)]}
          | (none, fs3) =>
            {s1 with fs := fs3, completed := s1.completed ++ [(idx, dest)]}
        else {s1 with completed := s1.completed ++ [(idx, dest)]}

/-- The item loop of `download_all`: at each loop top the stop event is
polled once; when set the loop breaks and no further item is touched. -/
def downloadLoop (stop : Nat → Bool) (envs : Nat → ItemEnv) :
    List (Int × ItemSpec) → Nat → DState → DState
  | [], _, s => s
  | (idx, it) :: rest, i, s =>
    if stop s.polls then {s with polls := s.polls + 1}
    else
      downloadLoop stop envs rest (i + 1)
        (processItem stop (envs i) i idx it {s with polls := s.polls + 1})

/-- Placeholder item for the (guarded, hence unreachable) list indexing. -/
def defaultItem : ItemSpec := ⟨"", ""⟩

/-- Work-list construction of `download_all`: an explicit selection wins;
otherwise a truthy `limit` truncates; the work pairs carry the 1-based
source position. -/
def buildWork (items0 : List ItemSpec) (indicesText : Option String)
    (limit : Option Nat) : List (Int × ItemSpec) :=
  let totalAll : Int := items0.length
  let sel : List Int :=
    match indicesText with
    | some t => if t ≠ "" then parseIndices t totalAll else []
    | none => []
  if sel = [] then
    let items :=
      match limit with
      | some l => if l ≠ 0 then items0.take l else items0
      | none => items0
    (List.range items.length).map
      (fun (j : Nat) => ((j : Int) + 1, items.getD j defaultItem))
  else
    sel.filterMap (fun idx =>
      if 1 ≤ idx ∧ idx ≤ totalAll then
        some (idx, items0.getD (idx - 1).toNat defaultItem)
      else none)

/-- Initial orchestrator state. -/
def initState : DState := ⟨0, 0, [], ∅, 0, []⟩

/-- `download_all` over the parsed index rows. -/
def downloadAll (items : List ItemSpec) (indicesText : Option String)
    (limit : Option Nat) (stop : Nat → Bool) (envs : Nat → ItemEnv) : DState :=
  downloadLoop stop envs (buildWork items indicesText limit) 1 initState

/-- Streaming completes untouched when the stop event never fires at its
polls. -/
lemma streamChunks_no_stop (stop : Nat → Bool) (dest : PathT) :
    ∀ (n : Nat) (fs : Finset PathT) (polls : Nat),
      (∀ c, c < n → stop (polls + c) = false) →
      streamChunks stop dest n fs polls = (true, fs, polls + n) := by
  intro n
  induction n with
  | zero => intro fs polls _; simp [streamChunks]
  | succ n ih =>
    intro fs polls h
    have h0 : stop polls = false := by simpa using h 0 (Nat.succ_pos n)
    simp only [streamChunks]
    rw [if_neg (by simp [h0])]
    rw [ih fs (polls + 1) (fun c hc => by
      have hx := h (c + 1) (by omega)
      rwa [show polls + (c + 1) = polls + 1 + c from by omega] at hx)]
    rw [show polls + 1 + n = polls + (n + 1) from by omega]

/-- When the stop event fires at some chunk poll, streaming aborts at the
first such poll, the partial destination is removed, and the poll counter
stops right after the firing poll. -/
lemma streamChunks_cancel (stop : Nat → Bool) (dest : PathT) :
    ∀ (n : Nat) (fs : Finset PathT) (polls : Nat),
      (∃ c, c < n ∧ stop (polls + c) = true) →
      ∃ c', c' < n ∧ stop (polls + c') = true ∧
        streamChunks stop dest n fs polls =
          (false, fs.erase dest, polls + c' + 1) := by
  intro n
  induction n with
  | zero =>
    rintro fs polls ⟨c, hc, -⟩
    exact absurd hc (Nat.not_lt_zero c)
  | succ n ih =>
    rintro fs polls ⟨c, hc, hfire⟩
    by_cases h0 : stop polls = true
    · refine ⟨0, Nat.succ_pos n, by simpa using h0, ?_⟩
      simp [streamChunks, h0]
    · have hc0 : c ≠ 0 := by
        intro h
        subst h
        simp only [Nat.add_zero] at hfire
        exact h0 hfire
      obtain ⟨c'', rfl⟩ : ∃ c'', c = c'' + 1 := ⟨c - 1, by omega⟩
      obtain ⟨c', hlt, hf, heq⟩ := ih fs (polls + 1)
        ⟨c'', by omega, by
          rwa [show polls + (c'' + 1) = polls + 1 + c'' from by omega] at hfire⟩
      refine ⟨c' + 1, by omega, ?_, ?_⟩
      · rwa [show polls + (c' + 1) = polls + 1 + c' from by omega]
      · simp only [streamChunks]
        rw [if_neg (by simp [h0]), heq,
          show polls + 1 + c' + 1 = polls + (c' + 1) + 1 from by omega]

/-- With the stop event already set at the loop top, the loop breaks: no
counter, list, file or completion changes, only one more poll. -/
lemma downloadLoop_noop (stop : Nat → Bool) (envs : Nat → ItemEnv)
    (work : List (Int × ItemSpec)) (i : Nat) (s : DState)
    (h : stop s.polls = true) :
    (downloadLoop stop envs work i s).okCount = s.okCount ∧
    (downloadLoop stop envs work i s).failCount = s.failCount ∧
    (downloadLoop stop envs work i s).failedOut = s.failedOut ∧
    (downloadLoop stop envs work i s).fs = s.fs ∧
    (downloadLoop stop envs work i s).completed = s.completed := by
  cases work with
  | nil => exact ⟨rfl, rfl, rfl, rfl, rfl⟩
  | cons hd tl =>
    rcases hd with ⟨idx, it⟩
    unfold downloadLoop
    rw [if_pos h]
    exact ⟨rfl, rfl, rfl, rfl, rfl⟩

/-- The adjusted destination keeps the `memory_<idx>` stem: only the suffix
can change. -/
lemma destAdjusted_stem (idx : Int) (v : Bool) (r : RResp) (furl : String) :
    (destAdjusted idx v r furl).stem = Stem.mem idx := by
  simp only [destAdjusted, destFor, withSuffix]
  split_ifs <;> rfl

/-- Claim C6 (amended part): whenever resolution yields a status ≥ 400, the
orchestrator writes the debug file `response_<i>_status<code>.txt` named by
the item's 1-based rank `i` in the processed work list and the status code,
and records the item's source position as failed without counting a
success. -/
theorem debug_dump_work_rank (stop : Nat → Bool) (e : ItemEnv) (i : Nat)
    (idx : Int) (it : ItemSpec) (s : DState) (r : RResp) (furl : String)
    (hres : e.resolveRes = .ok (r, furl)) (h400 : 400 ≤ r.status) :
    processItem stop e i idx it s =
      failStep idx
        {s with fs := insert ⟨.debug, .debugTxt i r.status, ".txt"⟩ s.fs} ∧
    (⟨.debug, .debugTxt i r.status, ".txt"⟩ : PathT) ∈
      (processItem stop e i idx it s).fs ∧
    (processItem stop e i idx it s).failedOut = s.failedOut ++ [idx] ∧
    (processItem stop e i idx it s).okCount = s.okCount := by
  have hp : processItem stop e i idx it s =
      failStep idx
        {s with fs := insert ⟨.debug, .debugTxt i r.status, ".txt"⟩ s.fs} := by
    simp only [processItem, hres]
    rw [if_pos h400]
  refine ⟨hp, ?_, ?_, ?_⟩
  · rw [hp]
    exact Finset.mem_insert_self _ _
  · rw [hp]
    rfl
  · rw [hp]
    rfl

/-- Counterexample to claim C6 as stated: with the strict-subset selection
`"2"` of a two-row index, the failing item's debug file is
`response_1_status500.txt` — numbered by its rank 1 in the work list — while
no `response_2_status500.txt` (numbered by its source position 2) exists;
the failed-set still records source position 2. -/
def itemsC6 : List ItemSpec :=
  [⟨"https://a.test/1", "image"⟩, ⟨"https://a.test/2", "image"⟩]

/-- Environment for the C6 counterexample: resolution yields a 500 page. -/
def envsC6 : Nat → ItemEnv := fun _ =>
  ⟨.ok (⟨500, "https://a.test/2", "text/html", none, ⟨none, none, none⟩, 0⟩,
    "https://a.test/2"), false, false, false⟩

/-- A stop event that never fires. -/
def stopNever : Nat → Bool := fun _ => false

/-- Counterexample theorem for C6: the number in the debug filename is the
work-list rank, not the source-index position. -/
theorem debug_dump_rank_counterexample :
    (buildWork itemsC6 (some "2") none).map (fun p => p.1) = [2] ∧
    (⟨.debug, .debugTxt 1 500, ".txt"⟩ : PathT) ∈
      (downloadAll itemsC6 (some "2") none stopNever envsC6).fs ∧
    (⟨.debug, .debugTxt 2 500, ".txt"⟩ : PathT) ∉
      (downloadAll itemsC6 (some "2") none stopNever envsC6).fs ∧
    (downloadAll itemsC6 (some "2") none stopNever envsC6).failedOut = [2] :=
  ⟨by decide, by decide, by decide, by decide⟩

/-- Witness for the amended C6 at the counterexample scenario's item. -/
theorem debug_dump_work_rank_witness :
    processItem stopNever (envsC6 1) 1 2 (itemsC6.getD 1 defaultItem) initState =
      failStep 2
        {initState with
          fs := insert ⟨.debug, .debugTxt 1 500, ".txt"⟩ initState.fs} ∧
    (processItem stopNever (envsC6 1) 1 2 (itemsC6.getD 1 defaultItem)
      initState).failedOut = initState.failedOut ++ [2] := by
  have h := debug_dump_work_rank stopNever (envsC6 1) 1 2
    (itemsC6.getD 1 defaultItem) initState
    ⟨500, "https://a.test/2", "text/html", none, ⟨none, none, none⟩, 0⟩
    "https://a.test/2" rfl (by norm_num)
  exact ⟨h.1, h.2.2.1⟩

/-- Evaluation of `processItem` when resolution succeeded with a media
response and the stop event never fires during streaming: the item is
counted a success and the video branch hands the saved file to the
transcoder. -/
lemma processItem_stream_ok (stop : Nat → Bool) (e : ItemEnv) (i : Nat)
    (idx : Int) (it : ItemSpec) (s : DState) (r : RResp) (furl : String)
    (hres : e.resolveRes = .ok (r, furl))
    (hst : r.status < 400)
    (hmedia : looksLikeMedia r.ctype = true)
    (hnostop : ∀ c, c < r.chunks → stop (s.polls + c) = false) :
    processItem stop e i idx it s =
      if isVideoOf it.mediaText then
        match ensureH264
            (insert (destAdjusted idx (isVideoOf it.mediaText) r furl) s.fs)
            e.ffmpegAvail e.convOk e.convLeavesTemp
            (destAdjusted idx (isVideoOf it.mediaText) r furl) with
        | (some finalP, fs3) =>
          {s with
            fs := fs3
            polls := s.polls + r.chunks
            okCount := s.okCount + 1
            completed := s.completed ++ [(idx, finalP)]}
        | (none, fs3) =>
          {s with
            fs := fs3
            polls := s.polls + r.chunks
            okCount := s.okCount + 1
            completed := s.completed ++
              [(idx, destAdjusted idx (isVideoOf it.mediaText) r furl)]}
      else
        {s with
          fs := insert (destAdjusted idx (isVideoOf it.mediaText) r furl) s.fs
          polls := s.polls + r.chunks
          okCount := s.okCount + 1
          completed := s.completed ++
            [(idx, destAdjusted idx (isVideoOf it.mediaText) r furl)]} := by
  simp only [processItem, hres]
  rw [if_neg (by omega : ¬ 400 ≤ r.status)]
  rw [if_neg (show ¬¬looksLikeMedia r.ctype = true by simp [hmedia])]
  rw [streamChunks_no_stop stop _ r.chunks _ s.polls hnostop]

/-- Claim C9: a video item whose download completed stays a success whatever
the transcoder does — when the tool is unavailable or the conversion fails
the success counter still counts it, its position is not added to the failed
set, and the downloaded original file is kept. -/
theorem transcode_failure_keeps_success (stop : Nat → Bool) (e : ItemEnv)
    (i : Nat) (idx : Int) (it : ItemSpec) (s : DState) (r : RResp)
    (furl : String)
    (hres : e.resolveRes = .ok (r, furl))
    (hst : r.status < 400)
    (hmedia : looksLikeMedia r.ctype = true)
    (hnostop : ∀ c, c < r.chunks → stop (s.polls + c) = false)
    (hvid : isVideoOf it.mediaText = true)
    (hbad : e.ffmpegAvail = false ∨ e.convOk = false) :
    (processItem stop e i idx it s).okCount = s.okCount + 1 ∧
    (processItem stop e i idx it s).failCount = s.failCount ∧
    (processItem stop e i idx it s).failedOut = s.failedOut ∧
    destAdjusted idx (isVideoOf it.mediaText) r furl ∈
      (processItem stop e i idx it s).fs := by
  have hdest : destAdjusted idx (isVideoOf it.mediaText) r furl ≠
      tmpPathOf (destAdjusted idx (isVideoOf it.mediaText) r furl) :=
    fun h => tmp_ne_src _ h.symm
  rw [processItem_stream_ok stop e i idx it s r furl hres hst hmedia hnostop]
  rw [if_pos hvid]
  rcases e with ⟨res, av, cok, clv⟩
  simp only at hbad
  rcases hbad with hav | hcok
  · subst hav
    rw [ensureH264_unavail]
    exact ⟨rfl, rfl, rfl, Finset.mem_insert_self _ _⟩
  · subst hcok
    cases av with
    | false =>
      rw [ensureH264_unavail]
      exact ⟨rfl, rfl, rfl, Finset.mem_insert_self _ _⟩
    | true =>
      rw [ensureH264_fail]
      refine ⟨rfl, rfl, rfl, ?_⟩
      exact Finset.mem_erase.mpr ⟨hdest, Finset.mem_insert_self _ _⟩

/-- Video item used by the C9 witness. -/
def itemV : ItemSpec := ⟨"https://a.test/v", "video"⟩

/-- Resolved video response used by the C9 witness. -/
def rV : RResp := ⟨200, "https://a.test/v", "video/mp4", none, ⟨none, none, none⟩, 3⟩

/-- Witness for C9: with ffmpeg unavailable the downloaded video item is
still counted a success, not recorded failed, and its file kept. -/
theorem transcode_failure_keeps_success_witness :
    (processItem stopNever ⟨.ok (rV, "https://a.test/v"), false, false, false⟩
      1 1 itemV initState).okCount = initState.okCount + 1 ∧
    (processItem stopNever ⟨.ok (rV, "https://a.test/v"), false, false, false⟩
      1 1 itemV initState).failedOut = initState.failedOut ∧
    destAdjusted 1 (isVideoOf itemV.mediaText) rV "https://a.test/v" ∈
      (processItem stopNever ⟨.ok (rV, "https://a.test/v"), false, false, false⟩
        1 1 itemV initState).fs := by
  have h := transcode_failure_keeps_success stopNever
    ⟨.ok (rV, "https://a.test/v"), false, false, false⟩ 1 1 itemV initState rV
    "https://a.test/v" rfl (by decide) (by decide)
    (fun _ _ => rfl) (by decide) (Or.inl rfl)
  exact ⟨h.1, h.2.2.1, h.2.2.2⟩

/-- Evaluation of `processItem` when resolution succeeded with a media
response and the stop event fires at some chunk poll: the partial file is
unlinked and the item fails. -/
lemma processItem_stream_cancel (stop : Nat → Bool) (e : ItemEnv) (i : Nat)
    (idx : Int) (it : ItemSpec) (s : DState) (r : RResp) (furl : String)
    (hres : e.resolveRes = .ok (r, furl))
    (hst : r.status < 400)
    (hmedia : looksLikeMedia r.ctype = true)
    (hfire : ∃ c, c < r.chunks ∧ stop (s.polls + c) = true) :
    ∃ c', c' < r.chunks ∧ stop (s.polls + c') = true ∧
      processItem stop e i idx it s =
        failStep idx
          {s with
            fs := s.fs.erase (destAdjusted idx (isVideoOf it.mediaText) r furl)
            polls := s.polls + c' + 1} := by
  obtain ⟨c', hlt, hf, hstream⟩ := streamChunks_cancel stop
    (destAdjusted idx (isVideoOf it.mediaText) r furl) r.chunks
    (insert (destAdjusted idx (isVideoOf it.mediaText) r furl) s.fs) s.polls
    hfire
  refine ⟨c', hlt, hf, ?_⟩
  simp only [processItem, hres]
  rw [if_neg (by omega : ¬ 400 ≤ r.status)]
  rw [if_neg (show ¬¬looksLikeMedia r.ctype = true by simp [hmedia])]
  rw [hstream, Finset.erase_insert_eq_erase]

/-- Claim C4: when the stop flag becomes set between chunks while an item's
body streams to disk (and was still unset at the item's loop top), the
partial destination file is deleted, the item's source position is recorded
as failed, no subsequent work item is processed (counters, failed list, file
set and completions all stay as the cancelled item left them), and the files
of previously completed items remain on disk. -/
theorem download_cancel_mid_stream (stop : Nat → Bool)
    (envs : Nat → ItemEnv) (i : Nat) (idx : Int) (it : ItemSpec)
    (rest : List (Int × ItemSpec)) (s : DState) (r : RResp) (furl : String)
    (c : Nat)
    (hMono : ∀ m n : Nat, m ≤ n → stop m = true → stop n = true)
    (hTop : stop s.polls = false)
    (hres : (envs i).resolveRes = .ok (r, furl))
    (hst : r.status < 400)
    (hmedia : looksLikeMedia r.ctype = true)
    (hc : c < r.chunks)
    (hfire : stop (s.polls + 1 + c) = true)
    (hcomp : ∀ pr ∈ s.completed, pr.2 ∈ s.fs ∧ pr.2.stem = Stem.mem pr.1)
    (hfresh : ∀ pr ∈ s.completed, pr.1 ≠ idx) :
    (downloadLoop stop envs ((idx, it) :: rest) i s).failedOut =
      s.failedOut ++ [idx] ∧
    destAdjusted idx (isVideoOf it.mediaText) r furl ∉
      (downloadLoop stop envs ((idx, it) :: rest) i s).fs ∧
    (downloadLoop stop envs ((idx, it) :: rest) i s).fs =
      s.fs.erase (destAdjusted idx (isVideoOf it.mediaText) r furl) ∧
    (downloadLoop stop envs ((idx, it) :: rest) i s).okCount = s.okCount ∧
    (downloadLoop stop envs ((idx, it) :: rest) i s).failCount =
      s.failCount + 1 ∧
    (downloadLoop stop envs ((idx, it) :: rest) i s).completed = s.completed ∧
    (∀ pr ∈ s.completed,
      pr.2 ∈ (downloadLoop stop envs ((idx, it) :: rest) i s).fs) := by
  obtain ⟨c', hlt, hf, hproc⟩ := processItem_stream_cancel stop (envs i) i idx
    it {s with polls := s.polls + 1} r furl hres hst hmedia ⟨c, hc, hfire⟩
  have hcons : downloadLoop stop envs ((idx, it) :: rest) i s =
      if stop s.polls then {s with polls := s.polls + 1}
      else downloadLoop stop envs rest (i + 1)
        (processItem stop (envs i) i idx it {s with polls := s.polls + 1}) :=
    rfl
  have hloop : downloadLoop stop envs ((idx, it) :: rest) i s =
      downloadLoop stop envs rest (i + 1)
        (processItem stop (envs i) i idx it {s with polls := s.polls + 1}) := by
    rw [hcons, if_neg (by simp [hTop])]
  have hf' : stop (s.polls + 1 + c') = true := hf
  have hstopAfter :
      stop (processItem stop (envs i) i idx it
        {s with polls := s.polls + 1}).polls = true := by
    rw [hproc]
    show stop (s.polls + 1 + c' + 1) = true
    exact hMono _ _ (by omega) hf'
  obtain ⟨hok, hfail, hfailed, hfs, hcompl⟩ :=
    downloadLoop_noop stop envs rest (i + 1) _ hstopAfter
  rw [hloop]
  refine ⟨?_, ?_, ?_, ?_, ?_, ?_, ?_⟩
  · rw [hfailed, hproc]
    rfl
  · rw [hfs, hproc]
    show destAdjusted idx (isVideoOf it.mediaText) r furl ∉
      s.fs.erase (destAdjusted idx (isVideoOf it.mediaText) r furl)
    exact Finset.not_mem_erase _ _
  · rw [hfs, hproc]
    rfl
  · rw [hok, hproc]
    rfl
  · rw [hfail, hproc]
    rfl
  · rw [hcompl, hproc]
    rfl
  · intro pr hpr
    rw [hfs, hproc]
    show pr.2 ∈ s.fs.erase (destAdjusted idx (isVideoOf it.mediaText) r furl)
    refine Finset.mem_erase.mpr ⟨?_, (hcomp pr hpr).1⟩
    intro heq
    have h1 : pr.2.stem = Stem.mem idx := by rw [heq, destAdjusted_stem]
    have h2 := (hcomp pr hpr).2
    rw [h2] at h1
    injection h1 with h3
    exact hfresh pr hpr h3

/-- Stop event of the C4 witness: fires from poll index 5 on (a write-once
event, hence monotone). -/
def stopW : Nat → Bool := fun n => decide (5 ≤ n)

/-- First item of the C4 witness run (completes before cancellation). -/
def itemW1 : ItemSpec := ⟨"https://a.test/1", "image"⟩

/-- Second item of the C4 witness run (cancelled mid-stream). -/
def itemW2 : ItemSpec := ⟨"https://a.test/2", "image"⟩

/-- Response of the first witness item: two chunks. -/
def rW1 : RResp :=
  ⟨200, "https://a.test/1", "image/jpeg", none, ⟨none, none, none⟩, 2⟩

/-- Response of the second witness item: ten chunks, cancelled after two. -/
def rW2 : RResp :=
  ⟨200, "https://a.test/2", "image/jpeg", none, ⟨none, none, none⟩, 10⟩

/-- Per-item environments of the C4 witness run. -/
def envsW : Nat → ItemEnv := fun i =>
  if i = 1 then ⟨.ok (rW1, "https://a.test/1"), false, false, false⟩
  else ⟨.ok (rW2, "https://a.test/2"), false, false, false⟩

/-- State after the first witness item completed. -/
def sW1 : DState := downloadLoop stopW envsW [(1, itemW1)] 1 initState

/-- Witness for C4: in a run whose first item completed, cancelling during
the second item's stream removes its partial file, records position 2 as
failed, processes no further item, and keeps the first item's file. -/
theorem download_cancel_mid_stream_witness :
    (downloadLoop stopW envsW [(2, itemW2), (3, itemW1)] 2 sW1).failedOut =
      sW1.failedOut ++ [2] ∧
    destAdjusted 2 (isVideoOf itemW2.mediaText) rW2 "https://a.test/2" ∉
      (downloadLoop stopW envsW [(2, itemW2), (3, itemW1)] 2 sW1).fs ∧
    (downloadLoop stopW envsW [(2, itemW2), (3, itemW1)] 2 sW1).okCount =
      sW1.okCount ∧
    (∀ pr ∈ sW1.completed,
      pr.2 ∈ (downloadLoop stopW envsW [(2, itemW2), (3, itemW1)] 2 sW1).fs) := by
  have h := download_cancel_mid_stream stopW envsW 2 2 itemW2 [(3, itemW1)]
    sW1 rW2 "https://a.test/2" 1
    (by
      intro m n hmn hm
      simp only [stopW, decide_eq_true_eq] at hm ⊢
      omega)
    (by decide) rfl (by decide) (by decide) (by decide) (by decide)
    (by decide) (by decide)
  exact ⟨h.1, h.2.1, h.2.2.2.1, h.2.2.2.2.2.2⟩

end Snap
